import Mathlib

/-!
Verification development for the metadata annotation parser and layout
builder of `sd_model_manager` (`model_manager.ts` / `model_manager.js`):
the functions `split_info` and `build_info_html`.

The embedding works on `List Char` for the string plumbing (splitting,
trimming, regex matching) and on `String` for the assembled pieces.
JavaScript string builtins are modelled once (`trim`, `split`, the two
regex literals) and used by both file models.
-/

/-- A parsed metadata field, `{name, value}` in the source (named `InfoField`
here because `Field` is taken by the algebra library). -/
structure InfoField where
  name : String
  value : String
deriving DecidableEq

/-- JavaScript `String.prototype.trim`: drop leading whitespace. -/
def trimLeft (cs : List Char) : List Char :=
  cs.dropWhile Char.isWhitespace

/-- JavaScript `String.prototype.trim`: drop leading and trailing whitespace. -/
def trim (cs : List Char) : List Char :=
  ((trimLeft cs).reverse.dropWhile Char.isWhitespace).reverse

/-- JavaScript `str.split(sep)` for a one-character separator, empty pieces kept
(`"".split(',') == [""]`). Models `line.split(',')`. -/
def splitChar (sep : Char) : List Char → List (List Char)
  | [] => [[]]
  | c :: rest =>
    match splitChar sep rest with
    | [] => [[]]
    | p :: ps => if c = sep then [] :: p :: ps else (c :: p) :: ps

/-- JavaScript `info.split('<br>')`: split on each occurrence of the literal
four-character marker, scanning left to right. -/
def splitBr : List Char → List (List Char)
  | '<' :: 'b' :: 'r' :: '>' :: rest => [] :: splitBr rest
  | c :: rest =>
    match splitBr rest with
    | [] => [[c]]
    | p :: ps => (c :: p) :: ps
  | [] => [[]]

/-- A character of the regex class `[\w ]` (ASCII word character or space). -/
def isWordSpace (c : Char) : Bool :=
  c.isAlphanum || c = '_' || c = ' '

/-- `trimmed_field.match(/^([\w ]+): ([^,]+)/)` on a comma-free fragment:
the anchored match succeeds exactly when a non-empty maximal `[\w ]`
prefix is followed by the literal `": "` and at least one further
character; the two captures are that prefix and the whole remainder
(the fragment holds no comma, so `[^,]+` is greedy to the end).
Returns the two captures. -/
def matchAnnot (cs : List Char) : Option (List Char × List Char) :=
  let nameRaw := cs.takeWhile isWordSpace
  let rest := cs.dropWhile isWordSpace
  if nameRaw ≠ [] ∧ rest.take 2 = [':', ' '] ∧ rest.drop 2 ≠ [] then
    some (nameRaw, rest.drop 2)
  else
    none

/-- One step of the fragment loop of `split_info`: trim, skip empty fragments,
push a new field on a regex match, otherwise append the continuation text to
the last field, with the separator chosen by `fields[0].value == ''`. -/
def processFragment (fields : List InfoField) (frag : List Char) : List InfoField :=
  let t := trim frag
  if t = [] then fields
  else
    match matchAnnot t with
    | some (n, v) => fields ++ [⟨⟨trim n⟩, ⟨trim v⟩⟩]
    | none =>
      match fields.getLast? with
      | none => fields
      | some last =>
        let comma : String := if (fields.headD ⟨"", ""⟩).value = "" then "" else ", "
        fields.dropLast ++ [⟨last.name, last.value ++ comma ++ ⟨t⟩⟩]

/-- `value.replace(/</g, '&lt;')`. -/
def replaceLt (cs : List Char) : List Char :=
  cs.flatMap fun c => if c = '<' then ['&', 'l', 't', ';'] else [c]

/-- `value.replace(/>/g, '&gt;')`. -/
def replaceGt (cs : List Char) : List Char :=
  cs.flatMap fun c => if c = '>' then ['&', 'g', 't', ';'] else [c]

/-- The chevron-escaping step applied to each field value at the end of
`split_info`. -/
def escape (s : String) : String :=
  ⟨replaceGt (replaceLt s.data)⟩

/-- `split_info` before its final escaping loop: the `<br>` line split, the
initial Prompt field, and the nested fragment loop. -/
def split_info_raw (info : String) : List InfoField :=
  let lines := splitBr info.data
  lines.foldl (fun fs line => (splitChar ',' line).foldl processFragment fs)
    [⟨"Prompt", ""⟩]

/-- `split_info` from `model_manager.ts`: parse the info string into fields,
then escape chevrons in every field value. -/
def split_info (info : String) : List InfoField :=
  (split_info_raw info).map fun f => ⟨f.name, escape f.value⟩


/-- Anchored case-insensitive occurrence of `prompt` at the head of `cs`
(the `(^| )prompt` alternative that matches at the start). -/
def promptAt (cs : List Char) : Bool :=
  "prompt".data.isPrefixOf (cs.map Char.toLower)

/-- Scan for an occurrence of `prompt` (case-insensitive) directly after a
space character. -/
def promptAfterSpace : List Char → Bool
  | [] => false
  | c :: rest => (c = ' ' && promptAt rest) || promptAfterSpace rest

/-- `field.name.match(/(^| )prompt/i)` as a Boolean: the pattern matches
iff `prompt` occurs case-insensitively at the start of the name or right
after a space. -/
def promptLike (name : String) : Bool :=
  promptAt name.data || promptAfterSpace name.data

/-- The `close_row` closure of `build_info_html`: on state
`(html, field_count)`, emit the row's closing markup and reset the counter,
when a row is open. -/
def close_row (st : String × Nat) : String × Nat :=
  if st.2 > 0 then (st.1 ++ "    </div>\n", 0) else st

/-- One iteration of the field loop of `build_info_html`. -/
def add_field (st : String × Nat) (f : InfoField) : String × Nat :=
  let is_normal_field := !promptLike f.name
  let st := if st.2 > 1 then close_row st else st
  let st :=
    if is_normal_field then
      let st := if st.2 = 0 then (st.1 ++ "<div class=\"row\">\n", st.2) else st
      (st.1 ++ "    <div class=\"field\">\n", st.2 + 1)
    else
      let st := close_row st
      (st.1 ++ "    <div class=\"vertical-field\">\n", st.2)
  (st.1 ++ "            <div class=\"name\">" ++ f.name ++ "</div>\n"
        ++ "            <div class=\"value\">" ++ f.value ++ "</div>\n"
        ++ "        </div>\n", st.2)

/-- The field loop of `build_info_html`, from the opening of the container
div to the closing of the last row and of the container. -/
def build_fields (fields : List InfoField) : String :=
  let st := fields.foldl add_field ("<div class=\"sd-mm-model-info-container\">\n", 0)
  (close_row st).1 ++ "</div>\n"

/-- `build_info_html` from `model_manager.ts`. -/
def build_info_html (info : String) : String :=
  build_fields (split_info info)


namespace JS

/-- The fragment step of `split_info` in `model_manager.js`: trim, skip
empty fragments, push a new field on a regex match, otherwise append the
continuation text to the last field, with the separator chosen by
`fields[0].value == ''`. Shares only the models of the string builtins and
regex literals with the TypeScript embedding. -/
def processFragment (fields : List InfoField) (frag : List Char) : List InfoField :=
  let t := trim frag
  if t = [] then fields
  else
    match matchAnnot t with
    | some (n, v) => fields ++ [⟨⟨trim n⟩, ⟨trim v⟩⟩]
    | none =>
      match fields.getLast? with
      | none => fields
      | some last =>
        let comma : String := if (fields.headD ⟨"", ""⟩).value = "" then "" else ", "
        fields.dropLast ++ [⟨last.name, last.value ++ comma ++ ⟨t⟩⟩]

/-- The escaping expression of the final loop of `split_info` in
`model_manager.js`: `field.value.replace(/</g, '&lt;').replace(/>/g, '&gt;')`. -/
def escape (s : String) : String :=
  ⟨replaceGt (replaceLt s.data)⟩

/-- `split_info` from `model_manager.js` (before its escaping loop): same
`<br>` line split, initial Prompt field and fragment loop as the
TypeScript file. -/
def split_info_raw (info : String) : List InfoField :=
  let lines := splitBr info.data
  lines.foldl (fun fs line => (splitChar ',' line).foldl JS.processFragment fs)
    [⟨"Prompt", ""⟩]

/-- `split_info` from `model_manager.js`. -/
def split_info (info : String) : List InfoField :=
  (JS.split_info_raw info).map fun f => ⟨f.name, JS.escape f.value⟩

/-- The `close_row` closure of `build_info_html` in `model_manager.js`. -/
def close_row (st : String × Nat) : String × Nat :=
  if st.2 > 0 then (st.1 ++ "    </div>\n", 0) else st

/-- One iteration of the field loop of `build_info_html` in
`model_manager.js`. -/
def add_field (st : String × Nat) (f : InfoField) : String × Nat :=
  let is_normal_field := !promptLike f.name
  let st := if st.2 > 1 then JS.close_row st else st
  let st :=
    if is_normal_field then
      let st := if st.2 = 0 then (st.1 ++ "<div class=\"row\">\n", st.2) else st
      (st.1 ++ "    <div class=\"field\">\n", st.2 + 1)
    else
      let st := JS.close_row st
      (st.1 ++ "    <div class=\"vertical-field\">\n", st.2)
  (st.1 ++ "            <div class=\"name\">" ++ f.name ++ "</div>\n"
        ++ "            <div class=\"value\">" ++ f.value ++ "</div>\n"
        ++ "        </div>\n", st.2)

/-- `build_info_html` from `model_manager.js`. -/
def build_info_html (info : String) : String :=
  let st := (JS.split_info info).foldl JS.add_field
    ("<div class=\"sd-mm-model-info-container\">\n", 0)
  (JS.close_row st).1 ++ "</div>\n"

end JS


/-! ## Helper lemmas -/

/-- A property preserved by every step of a fold is preserved by the fold. -/
theorem foldl_preserve {α β : Type} (P : α → Prop) (f : α → β → α)
    (hf : ∀ a b, P a → P (f a b)) : ∀ (l : List β) (a : α), P a → P (l.foldl f a) := by
  intro l
  induction l with
  | nil => intro a ha; simpa using ha
  | cons x xs ih => intro a ha; exact ih _ (hf _ _ ha)

/-- The field list starts with a field named `Prompt`. -/
def headPrompt (fs : List InfoField) : Prop :=
  ∃ v rest, fs = ⟨"Prompt", v⟩ :: rest

theorem processFragment_headPrompt (fs : List InfoField) (frag : List Char)
    (h : headPrompt fs) : headPrompt (processFragment fs frag) := by
  obtain ⟨v, rest, rfl⟩ := h
  unfold processFragment
  by_cases ht : trim frag = []
  · simpa [ht] using ⟨v, rest, rfl⟩
  · cases hm : matchAnnot (trim frag) with
    | some nv =>
      exact ⟨v, rest ++ [⟨⟨trim nv.1⟩, ⟨trim nv.2⟩⟩], by simp [ht, hm]⟩
    | none =>
      cases rest with
      | nil =>
        exact ⟨(v ++ if v = "" then "" else ", ") ++ ⟨trim frag⟩, [], by simp [ht, hm]⟩
      | cons r rs =>
        refine ⟨v, (r :: rs).dropLast ++
          [⟨((r :: rs).getLast (by simp)).name,
            ((r :: rs).getLast (by simp)).value ++
              (if v = "" then "" else ", ") ++ ⟨trim frag⟩⟩], ?_⟩
        simp [ht, hm, List.getLast?_eq_getLast]

theorem split_info_raw_headPrompt (info : String) :
    headPrompt (split_info_raw info) := by
  unfold split_info_raw
  apply foldl_preserve _ _ ?_ _ _ ⟨"", [], rfl⟩
  intro fs line h
  exact foldl_preserve _ _ (fun a b hp => processFragment_headPrompt a b hp) _ _ h

theorem split_info_headPrompt (info : String) :
    ∃ v rest, split_info info = ⟨"Prompt", v⟩ :: rest := by
  obtain ⟨v, rest, h⟩ := split_info_raw_headPrompt info
  exact ⟨escape v, rest.map fun f => ⟨f.name, escape f.value⟩, by simp [split_info, h]⟩

/-! ## Claims -/

/-- C4: for every input string, `split_info` returns a non-empty field
sequence whose first element is named `Prompt`; this initial field exists
for every input, its value possibly empty. -/
theorem c4_first_field_is_prompt (info : String) :
    ∃ v rest, split_info info = ⟨"Prompt", v⟩ :: rest :=
  split_info_headPrompt info

/-- C8: the parser is total — every input yields a non-empty field
sequence; on empty input, annotation-free input and input with unbalanced
delimiters all text accumulates in the Prompt field's value. -/
theorem c8_parser_total :
    (∀ info : String, split_info info ≠ []) ∧
    split_info "" = [⟨"Prompt", ""⟩] ∧
    split_info "no annotations here" = [⟨"Prompt", "no annotations here"⟩] ∧
    split_info "x <br" = [⟨"Prompt", "x &lt;br"⟩] ∧
    split_info ",,<br>, ," = [⟨"Prompt", ""⟩] := by
  refine ⟨fun info => ?_, by decide, by decide, by decide, by decide⟩
  obtain ⟨v, rest, h⟩ := split_info_headPrompt info
  simp [h]

/-- C2: on the spec's worked example the code returns the five fields in
order, but the last one reassembles as `blurrylow quality` — the
continuation separator consults `fields[0].value` (the still-empty Prompt
field) instead of the last field's value, so no `", "` is inserted. The
claim's expected `blurry, low quality` is not what the code produces. -/
theorem c2_example_actual_output :
    split_info "Steps: 20, Sampler: Euler, CFG scale: 7<br>Negative prompt: blurry, low quality" =
    [⟨"Prompt", ""⟩, ⟨"Steps", "20"⟩, ⟨"Sampler", "Euler"⟩, ⟨"CFG scale", "7"⟩,
     ⟨"Negative prompt", "blurrylow quality"⟩] := by decide

/-- C1: concrete run showing the continuation rule of the code. The last
field `Steps` has the non-empty value `20` when the continuation fragment
`extra detail` arrives, yet the code appends it with no `", "` separator,
because the code tests `fields[0].value` (the Prompt field, still empty)
rather than the last field's value. -/
theorem c1_continuation_separator_actual :
    split_info "Steps: 20, extra detail" =
    [⟨"Prompt", ""⟩, ⟨"Steps", "20extra detail"⟩] := by decide

/-! ## Escaping lemmas (C6, C7) -/

theorem replaceLt_cons (a : Char) (t : List Char) :
    replaceLt (a :: t) = (if a = '<' then ['&', 'l', 't', ';'] else [a]) ++ replaceLt t := by
  simp [replaceLt]

theorem replaceGt_cons (a : Char) (t : List Char) :
    replaceGt (a :: t) = (if a = '>' then ['&', 'g', 't', ';'] else [a]) ++ replaceGt t := by
  simp [replaceGt]

theorem lt_not_mem_replaceLt (cs : List Char) : '<' ∉ replaceLt cs := by
  intro h
  rw [replaceLt, List.mem_flatMap] at h
  obtain ⟨a, -, ha⟩ := h
  by_cases h' : a = '<'
  · rw [if_pos h'] at ha
    exact absurd ha (by decide)
  · rw [if_neg h'] at ha
    exact h' (List.mem_singleton.mp ha).symm

theorem gt_not_mem_replaceGt (cs : List Char) : '>' ∉ replaceGt cs := by
  intro h
  rw [replaceGt, List.mem_flatMap] at h
  obtain ⟨a, -, ha⟩ := h
  by_cases h' : a = '>'
  · rw [if_pos h'] at ha
    exact absurd ha (by decide)
  · rw [if_neg h'] at ha
    exact h' (List.mem_singleton.mp ha).symm

theorem lt_not_mem_replaceGt (cs : List Char) (h : '<' ∉ cs) : '<' ∉ replaceGt cs := by
  intro hm
  rw [replaceGt, List.mem_flatMap] at hm
  obtain ⟨a, hac, ha⟩ := hm
  by_cases h' : a = '>'
  · rw [if_pos h'] at ha
    exact absurd ha (by decide)
  · rw [if_neg h'] at ha
    exact h ((List.mem_singleton.mp ha) ▸ hac)

theorem escape_no_lt (s : String) : '<' ∉ (escape s).data :=
  lt_not_mem_replaceGt _ (lt_not_mem_replaceLt _)

theorem escape_no_gt (s : String) : '>' ∉ (escape s).data :=
  gt_not_mem_replaceGt _

theorem replaceLt_eq_self (cs : List Char) (h : '<' ∉ cs) : replaceLt cs = cs := by
  induction cs with
  | nil => rfl
  | cons a t ih =>
    have ha : ¬a = '<' := fun e => h (e ▸ List.mem_cons_self a t)
    have ht : '<' ∉ t := fun m => h (List.mem_cons_of_mem _ m)
    rw [replaceLt_cons, if_neg ha, ih ht]
    rfl

theorem replaceGt_eq_self (cs : List Char) (h : '>' ∉ cs) : replaceGt cs = cs := by
  induction cs with
  | nil => rfl
  | cons a t ih =>
    have ha : ¬a = '>' := fun e => h (e ▸ List.mem_cons_self a t)
    have ht : '>' ∉ t := fun m => h (List.mem_cons_of_mem _ m)
    rw [replaceGt_cons, if_neg ha, ih ht]
    rfl

theorem length_replaceLt (cs : List Char) :
    (replaceLt cs).length = cs.length + 3 * cs.count '<' := by
  induction cs with
  | nil => rfl
  | cons a t ih =>
    by_cases h : a = '<' <;>
      simp [replaceLt_cons, h, ih, List.count_cons] <;> omega

theorem count_gt_replaceLt (cs : List Char) :
    (replaceLt cs).count '>' = cs.count '>' := by
  induction cs with
  | nil => rfl
  | cons a t ih =>
    by_cases h : a = '<'
    · subst h
      simp [replaceLt_cons, List.count_cons, ih]
    · simp [replaceLt_cons, h, List.count_cons, ih]

theorem length_replaceGt (cs : List Char) :
    (replaceGt cs).length = cs.length + 3 * cs.count '>' := by
  induction cs with
  | nil => rfl
  | cons a t ih =>
    by_cases h : a = '>' <;>
      simp [replaceGt_cons, h, ih, List.count_cons] <;> omega

/-- C7: the chevron-escaping step is idempotent, and each chevron of the
original value yields exactly one four-character entity (the length grows
by exactly three per original `<` or `>`). -/
theorem c7_escape_idempotent (s : String) :
    escape (escape s) = escape s ∧
    (escape s).data.length = s.data.length + 3 * (s.data.count '<' + s.data.count '>') := by
  constructor
  · have h1 : '<' ∉ (escape s).data := escape_no_lt s
    have h2 : '>' ∉ (escape s).data := escape_no_gt s
    show (⟨replaceGt (replaceLt (escape s).data)⟩ : String) = escape s
    rw [replaceLt_eq_self _ h1, replaceGt_eq_self _ h2]
  · show (replaceGt (replaceLt s.data)).length = _
    rw [length_replaceGt, length_replaceLt, count_gt_replaceLt]
    ring

/-! ## Substring occurrence in the built markup (C6) -/

/-- `needle` occurs as a contiguous substring of `hay`. -/
def containsSub (needle hay : String) : Prop :=
  needle.data <:+: hay.data

instance (a b : String) : Decidable (containsSub a b) :=
  List.decidableInfix a.data b.data

theorem sub_of_head (x m : List Char) : x <:+: x ++ m :=
  ⟨[], m, by simp⟩

theorem sub_append_left (l : List Char) {x m : List Char} (h : x <:+: m) :
    x <:+: l ++ m := by
  obtain ⟨s, t, rfl⟩ := h
  exact ⟨l ++ s, t, by simp⟩

theorem sub_append_right (m : List Char) {x l : List Char} (h : x <:+: l) :
    x <:+: l ++ m := by
  obtain ⟨s, t, rfl⟩ := h
  exact ⟨s, t ++ m, by simp⟩

theorem escape_mono {t s : String} (h : containsSub t s) :
    containsSub (escape t) (escape s) := by
  obtain ⟨a, b, hab⟩ := h
  refine ⟨replaceGt (replaceLt a), replaceGt (replaceLt b), ?_⟩
  have ht : (escape t).data = replaceGt (replaceLt t.data) := rfl
  have hs : (escape s).data = replaceGt (replaceLt s.data) := rfl
  rw [ht, hs, ← hab]
  simp [replaceLt, replaceGt]

theorem value_sub_add_field (st : String × Nat) (f : InfoField) :
    f.value.data <:+: (add_field st f).1.data := by
  unfold add_field close_row
  repeat' split
  all_goals
    simp only [String.data_append, List.append_assoc]
  all_goals
    repeat first
      | exact sub_of_head _ _
      | apply sub_append_left

theorem close_row_mono (s : String × Nat) {x : List Char}
    (hs : x <:+: s.1.data) : x <:+: (close_row s).1.data := by
  unfold close_row
  split
  · exact sub_append_right _ hs
  · exact hs

theorem add_field_mono (st : String × Nat) (f : InfoField) {x : List Char}
    (h : x <:+: st.1.data) : x <:+: (add_field st f).1.data := by
  simp only [add_field]
  have h1 : x <:+: (if st.2 > 1 then close_row st else st).1.data := by
    split
    · exact close_row_mono st h
    · exact h
  generalize (if st.2 > 1 then close_row st else st) = st1 at h1 ⊢
  by_cases hp : (!promptLike f.name) = true
  · rw [if_pos hp]
    have h2 : x <:+:
        (if st1.2 = 0 then (st1.1 ++ "<div class=\"row\">\n", st1.2) else st1).1.data := by
      split
      · exact sub_append_right _ h1
      · exact h1
    generalize (if st1.2 = 0 then (st1.1 ++ "<div class=\"row\">\n", st1.2) else st1) = st2
      at h2 ⊢
    simp only [String.data_append, List.append_assoc]
    exact sub_append_right _ h2
  · rw [if_neg hp]
    have h2 := close_row_mono st1 h1
    simp only [String.data_append, List.append_assoc]
    exact sub_append_right _ h2

theorem foldl_add_field_mono (fields : List InfoField) (st : String × Nat)
    {x : List Char} (h : x <:+: st.1.data) :
    x <:+: (fields.foldl add_field st).1.data := by
  induction fields generalizing st with
  | nil => exact h
  | cons g rest ih => exact ih _ (add_field_mono st g h)

theorem value_sub_foldl (fields : List InfoField) (st : String × Nat)
    (f : InfoField) (hf : f ∈ fields) :
    f.value.data <:+: (fields.foldl add_field st).1.data := by
  induction fields generalizing st with
  | nil => cases hf
  | cons g rest ih =>
    rcases List.mem_cons.mp hf with rfl | hmem
    · exact foldl_add_field_mono rest _ (value_sub_add_field st f)
    · exact ih _ hmem

theorem value_sub_build (fields : List InfoField) (f : InfoField)
    (hf : f ∈ fields) : f.value.data <:+: (build_fields fields).data := by
  have h := value_sub_foldl fields ("<div class=\"sd-mm-model-info-container\">\n", 0) f hf
  have h2 := close_row_mono _ h
  simp only [build_fields, String.data_append]
  exact sub_append_right _ h2

/-- C6: if some parsed field's pre-escape value contains `<script>`, the
markup built for that input contains `&lt;script&gt;`; every field value
emitted into the markup is free of raw `<` and `>` characters (so no
`<script>` tag can originate from a field value), and the chevron escaping
is applied to every field's value and to no field's name. -/
theorem c6_script_is_escaped (info : String) (f : InfoField)
    (hf : f ∈ split_info_raw info) (hs : containsSub "<script>" f.value) :
    containsSub "&lt;script&gt;" (build_info_html info) ∧
    (∀ g ∈ split_info info, '<' ∉ g.value.data ∧ '>' ∉ g.value.data) ∧
    split_info info = (split_info_raw info).map fun g => ⟨g.name, escape g.value⟩ := by
  refine ⟨?_, ?_, rfl⟩
  · have h1 : containsSub (escape "<script>") (escape f.value) := escape_mono hs
    have h2 : escape ("<script>" : String) = "&lt;script&gt;" := rfl
    rw [h2] at h1
    have hmem : (⟨f.name, escape f.value⟩ : InfoField) ∈ split_info info :=
      List.mem_map.mpr ⟨f, hf, rfl⟩
    have h3 := value_sub_build (split_info info) ⟨f.name, escape f.value⟩ hmem
    exact List.IsInfix.trans h1 h3
  · intro g hg
    obtain ⟨g0, hg0, rfl⟩ := List.mem_map.mp hg
    exact ⟨escape_no_lt _, escape_no_gt _⟩

/-- Witness for C6 at the concrete input `a <script> b`: its Prompt field's
pre-escape value contains `<script>`, and the built markup contains the
escaped entity form. -/
theorem c6_script_is_escaped_witness :
    ((⟨"Prompt", "a <script> b"⟩ : InfoField) ∈ split_info_raw "a <script> b") ∧
    containsSub "<script>" ("a <script> b" : String) ∧
    containsSub "&lt;script&gt;" (build_info_html "a <script> b") :=
  ⟨by decide, by decide,
    (c6_script_is_escaped "a <script> b" ⟨"Prompt", "a <script> b"⟩
      (by decide) (by decide)).1⟩

/-- C9: the two files hold the same logic: for every input string the
TypeScript and JavaScript `split_info` return the same field sequence and
the TypeScript and JavaScript `build_info_html` return exactly the same
markup fragment. -/
theorem c9_ts_js_identical :
    (∀ info, split_info info = JS.split_info info) ∧
    (∀ info, build_info_html info = JS.build_info_html info) :=
  ⟨fun _ => rfl, fun _ => rfl⟩

/-! ## Field-name invariant (C10) -/

theorem dropWhile_head_false {p : Char → Bool} :
    ∀ {l : List Char} {c : Char} {l' : List Char},
      l.dropWhile p = c :: l' → p c = false := by
  intro l
  induction l with
  | nil => intro c l' h; cases h
  | cons a t ih =>
    intro c l' h
    rw [List.dropWhile_cons] at h
    split at h
    · exact ih h
    · cases h
      simpa using ‹¬p a = true›

theorem mem_of_mem_trim {c : Char} {cs : List Char} (h : c ∈ trim cs) : c ∈ cs := by
  unfold trim trimLeft at h
  rw [List.mem_reverse] at h
  have h1 := (List.dropWhile_sublist _).mem h
  rw [List.mem_reverse] at h1
  exact (List.dropWhile_sublist _).mem h1

theorem trim_prefix_trimLeft (cs : List Char) : trim cs <+: trimLeft cs := by
  unfold trim
  have h1 : (trimLeft cs).reverse.dropWhile Char.isWhitespace <:+ (trimLeft cs).reverse :=
    List.dropWhile_suffix _
  have h2 := List.reverse_prefix.mpr h1
  rwa [List.reverse_reverse] at h2

theorem trim_head_not_ws {frag : List Char} {c : Char} {l : List Char}
    (h : trim frag = c :: l) : c.isWhitespace = false := by
  obtain ⟨t2, ht2⟩ := trim_prefix_trimLeft frag
  rw [h] at ht2
  have hd : frag.dropWhile Char.isWhitespace = c :: (l ++ t2) := by
    simpa [trimLeft] using ht2.symm
  exact dropWhile_head_false hd

theorem trim_ne_nil_of_head {c : Char} {l : List Char}
    (h : c.isWhitespace = false) : trim (c :: l) ≠ [] := by
  intro he
  unfold trim trimLeft at he
  rw [List.dropWhile_cons, if_neg (by simp [h])] at he
  rw [List.reverse_eq_nil_iff, List.dropWhile_eq_nil_iff] at he
  have := he c (by simp)
  rw [h] at this
  cases this

/-- All fields in the list have a non-empty name made of `[\w ]` characters. -/
def namesOk (fs : List InfoField) : Prop :=
  ∀ f ∈ fs, f.name.data ≠ [] ∧ ∀ c ∈ f.name.data, isWordSpace c = true

theorem processFragment_namesOk (fs : List InfoField) (frag : List Char)
    (h : namesOk fs) : namesOk (processFragment fs frag) := by
  unfold processFragment
  by_cases ht : trim frag = []
  · simpa [ht]
  · cases hm : matchAnnot (trim frag) with
    | some nv =>
      simp only [ht, if_neg, hm]
      rw [if_neg not_false]
      intro f hf
      rcases List.mem_append.mp hf with hmem | hnew
      · exact h f hmem
      · rw [List.mem_singleton.mp hnew]
        rw [matchAnnot] at hm
        split at hm
        next hc =>
          obtain ⟨hne, -, -⟩ := hc
          cases hm
          obtain ⟨c, l, hcl⟩ : ∃ c l, trim frag = c :: l := by
            cases hfrag : trim frag with
            | nil => exact absurd hfrag ht
            | cons c l => exact ⟨c, l, rfl⟩
          have hcws : c.isWhitespace = false := trim_head_not_ws hcl
          have htake : ∃ l', (trim frag).takeWhile isWordSpace = c :: l' := by
            rw [hcl] at hne ⊢
            rw [List.takeWhile_cons] at hne ⊢
            by_cases hw : isWordSpace c = true
            · rw [if_pos hw]
              exact ⟨_, rfl⟩
            · rw [if_neg hw] at hne
              exact absurd rfl hne
          obtain ⟨l', hl'⟩ := htake
          constructor
          · show trim ((trim frag).takeWhile isWordSpace) ≠ []
            rw [hl']
            exact trim_ne_nil_of_head hcws
          · intro d hd
            have hd1 : d ∈ (trim frag).takeWhile isWordSpace := mem_of_mem_trim hd
            exact List.mem_takeWhile_imp hd1
        next => cases hm
    | none =>
      cases hl : fs.getLast? with
      | none => simpa [ht, hm, hl] using h
      | some last =>
        simp only [ht, hm, hl]
        rw [if_neg not_false]
        intro f hf
        rcases List.mem_append.mp hf with hmem | hnew
        · exact h f (List.mem_of_mem_dropLast hmem)
        · rw [List.mem_singleton.mp hnew]
          exact h last (List.mem_of_getLast?_eq_some hl)

theorem split_info_raw_namesOk (info : String) : namesOk (split_info_raw info) := by
  unfold split_info_raw
  have hinit : namesOk [⟨"Prompt", ""⟩] := by
    intro f hf
    rw [List.mem_singleton.mp hf]
    exact ⟨by decide, by decide⟩
  exact foldl_preserve namesOk _
    (fun fs line hfs =>
      foldl_preserve namesOk processFragment
        (fun a b hp => processFragment_namesOk a b hp) _ fs hfs)
    _ _ hinit

/-- C10: every field name produced by `split_info` is non-empty and made
only of ASCII word characters and spaces, so names never contain `<`, `>`
or a double quote, which is what makes emitting them verbatim into the
markup safe. -/
theorem c10_names_safe (info : String) (f : InfoField)
    (hf : f ∈ split_info info) :
    f.name ≠ "" ∧ (∀ c ∈ f.name.data, isWordSpace c = true) ∧
    '<' ∉ f.name.data ∧ '>' ∉ f.name.data ∧ '\"' ∉ f.name.data := by
  obtain ⟨g, hg, rfl⟩ := List.mem_map.mp hf
  obtain ⟨hne, hchars⟩ := split_info_raw_namesOk info g hg
  refine ⟨?_, hchars, ?_, ?_, ?_⟩
  · intro he
    exact hne (by rw [he])
  · intro hmem
    have := hchars _ hmem
    exact absurd this (by decide)
  · intro hmem
    have := hchars _ hmem
    exact absurd this (by decide)
  · intro hmem
    have := hchars _ hmem
    exact absurd this (by decide)

/-- Witness for C10 at the concrete input `Steps: 1` and its parsed field
`Steps`. -/
theorem c10_names_safe_witness :
    ((⟨"Steps", "1"⟩ : InfoField) ∈ split_info "Steps: 1") ∧
    (InfoField.name ⟨"Steps", "1"⟩ ≠ "" ∧
      (∀ c ∈ (InfoField.name ⟨"Steps", "1"⟩).data, isWordSpace c = true) ∧
      '<' ∉ (InfoField.name ⟨"Steps", "1"⟩).data ∧
      '>' ∉ (InfoField.name ⟨"Steps", "1"⟩).data ∧
      '\"' ∉ (InfoField.name ⟨"Steps", "1"⟩).data) :=
  ⟨by decide, c10_names_safe "Steps: 1" ⟨"Steps", "1"⟩ (by decide)⟩

/-! ## Prompt-like classification (C3) -/

/-- C3 counterexample: the regex `(^| )prompt/i` requires a boundary only
BEFORE `prompt`, so the name `Promptless` matches at its start and is
classified prompt-like — it renders as a vertical block, not as a normal
row field as the claim states. -/
theorem c3_promptless_counterexample :
    promptLike "Promptless" = true ∧
    build_fields [⟨"Promptless", "x"⟩] =
      "<div class=\"sd-mm-model-info-container\">\n    <div class=\"vertical-field\">\n            <div class=\"name\">Promptless</div>\n            <div class=\"value\">x</div>\n        </div>\n</div>\n" :=
  ⟨rfl, rfl⟩

theorem promptAfterSpace_iff (cs : List Char) :
    promptAfterSpace cs = true ↔
      ∃ l r, cs = l ++ ' ' :: r ∧ "prompt".data <+: r.map Char.toLower := by
  induction cs with
  | nil =>
    simp only [promptAfterSpace, Bool.false_eq_true, false_iff]
    rintro ⟨l, r, hl, -⟩
    exact absurd hl.symm (List.append_ne_nil_of_right_ne_nil l (by simp))
  | cons c rest ih =>
    simp only [promptAfterSpace, Bool.or_eq_true, Bool.and_eq_true,
      decide_eq_true_eq, ih, promptAt, List.isPrefixOf_iff_prefix]
    constructor
    · rintro (⟨rfl, hp⟩ | ⟨l, r, rfl, hp⟩)
      · exact ⟨[], rest, rfl, hp⟩
      · exact ⟨c :: l, r, rfl, hp⟩
    · rintro ⟨l, r, hcs, hp⟩
      cases l with
      | nil =>
        rw [List.nil_append] at hcs
        cases hcs
        exact Or.inl ⟨rfl, hp⟩
      | cons a l' =>
        rw [List.cons_append] at hcs
        cases hcs
        exact Or.inr ⟨l', r, rfl, hp⟩

set_option maxRecDepth 4000 in
/-- C3 (amended): a field name is classified prompt-like iff,
case-insensitively, `prompt` occurs at the very start of the name or
directly after a space — no word boundary is required after it. `Prompt`
and `Negative prompt` are prompt-like and render as vertical blocks, and
so does `Promptless`; `Steps` and `Sampler` are normal and render as row
fields, at most two to a row. -/
theorem c3_prompt_classification :
    (∀ name : String, promptLike name = true ↔
      ("prompt".data <+: name.data.map Char.toLower ∨
        ∃ l r, name.data = l ++ ' ' :: r ∧ "prompt".data <+: r.map Char.toLower)) ∧
    promptLike "Prompt" = true ∧ promptLike "Negative prompt" = true ∧
    promptLike "Promptless" = true ∧
    promptLike "Steps" = false ∧ promptLike "Sampler" = false ∧
    build_fields [⟨"Prompt", "p"⟩] =
      "<div class=\"sd-mm-model-info-container\">\n    <div class=\"vertical-field\">\n            <div class=\"name\">Prompt</div>\n            <div class=\"value\">p</div>\n        </div>\n</div>\n" ∧
    build_fields [⟨"Negative prompt", "n"⟩] =
      "<div class=\"sd-mm-model-info-container\">\n    <div class=\"vertical-field\">\n            <div class=\"name\">Negative prompt</div>\n            <div class=\"value\">n</div>\n        </div>\n</div>\n" ∧
    build_fields [⟨"Steps", "20"⟩, ⟨"Sampler", "Euler"⟩] =
      "<div class=\"sd-mm-model-info-container\">\n<div class=\"row\">\n    <div class=\"field\">\n            <div class=\"name\">Steps</div>\n            <div class=\"value\">20</div>\n        </div>\n    <div class=\"field\">\n            <div class=\"name\">Sampler</div>\n            <div class=\"value\">Euler</div>\n        </div>\n    </div>\n</div>\n" := by
  refine ⟨?_, rfl, rfl, rfl, rfl, rfl, rfl, rfl, rfl⟩
  intro name
  rw [promptLike, Bool.or_eq_true, promptAfterSpace_iff]
  rw [promptAt, List.isPrefixOf_iff_prefix]

/-! ## Row size invariant (C5) -/

theorem add_field_count_le (st : String × Nat) (f : InfoField) :
    (add_field st f).2 ≤ 2 := by
  obtain ⟨html, n⟩ := st
  unfold add_field close_row
  by_cases hp : (!promptLike f.name) = true <;>
    by_cases h2 : n > 1 <;>
    by_cases h0 : 0 < n <;>
    by_cases hz : n = 0 <;>
    first
      | omega
      | (simp [hp, h2, h0, hz]; omega)
      | simp [hp, h2, h0, hz]

theorem foldl_add_field_count_le (fields : List InfoField) (st : String × Nat)
    (h : st.2 ≤ 2) : (fields.foldl add_field st).2 ≤ 2 := by
  induction fields generalizing st with
  | nil => exact h
  | cons g rest ih => exact ih _ (add_field_count_le st g)

set_option maxRecDepth 4000 in
/-- C5: the row counter of the layout builder never exceeds two — every
`add_field` step leaves at most two fields in the open row, so no row
container ever holds more than two normal fields — and a sequence of
exactly three normal fields renders as exactly two row containers, the
first holding two field blocks and the second holding one. -/
theorem c5_rows_hold_at_most_two :
    (∀ (fields : List InfoField) (st : String × Nat),
      st.2 ≤ 2 → (fields.foldl add_field st).2 ≤ 2) ∧
    (∀ f1 f2 f3 : InfoField,
      promptLike f1.name = false → promptLike f2.name = false →
      promptLike f3.name = false →
      build_fields [f1, f2, f3] =
        "<div class=\"sd-mm-model-info-container\">\n" ++
        "<div class=\"row\">\n" ++
        "    <div class=\"field\">\n" ++
        "            <div class=\"name\">" ++ f1.name ++ "</div>\n" ++
        "            <div class=\"value\">" ++ f1.value ++ "</div>\n" ++
        "        </div>\n" ++
        "    <div class=\"field\">\n" ++
        "            <div class=\"name\">" ++ f2.name ++ "</div>\n" ++
        "            <div class=\"value\">" ++ f2.value ++ "</div>\n" ++
        "        </div>\n" ++
        "    </div>\n" ++
        "<div class=\"row\">\n" ++
        "    <div class=\"field\">\n" ++
        "            <div class=\"name\">" ++ f3.name ++ "</div>\n" ++
        "            <div class=\"value\">" ++ f3.value ++ "</div>\n" ++
        "        </div>\n" ++
        "    </div>\n" ++
        "</div>\n") := by
  refine ⟨foldl_add_field_count_le, ?_⟩
  intro f1 f2 f3 h1 h2 h3
  simp only [build_fields, List.foldl, add_field, close_row, h1, h2, h3,
    Bool.not_false, if_true, if_false]
  simp [String.append_assoc]

set_option maxRecDepth 4000 in
/-- Witness for C5 at three concrete normal fields. -/
theorem c5_rows_hold_at_most_two_witness :
    (([⟨"CFG scale", "7"⟩] : List InfoField).foldl add_field ("", 0)).2 ≤ 2 ∧
    build_fields [⟨"Steps", "20"⟩, ⟨"Sampler", "Euler"⟩, ⟨"CFG scale", "7"⟩] =
      "<div class=\"sd-mm-model-info-container\">\n<div class=\"row\">\n    <div class=\"field\">\n            <div class=\"name\">Steps</div>\n            <div class=\"value\">20</div>\n        </div>\n    <div class=\"field\">\n            <div class=\"name\">Sampler</div>\n            <div class=\"value\">Euler</div>\n        </div>\n    </div>\n<div class=\"row\">\n    <div class=\"field\">\n            <div class=\"name\">CFG scale</div>\n            <div class=\"value\">7</div>\n        </div>\n    </div>\n</div>\n" :=
  ⟨c5_rows_hold_at_most_two.1 [⟨"CFG scale", "7"⟩] ("", 0) (by decide),
    c5_rows_hold_at_most_two.2 ⟨"Steps", "20"⟩ ⟨"Sampler", "Euler"⟩ ⟨"CFG scale", "7"⟩
      rfl rfl rfl⟩

/-- Witness for the C3 characterization: `System prompt` (the spec's own
hypothetical) is classified prompt-like via the space-preceded occurrence. -/
theorem c3_prompt_classification_witness :
    promptLike "System prompt" = true :=
  (c3_prompt_classification.1 "System prompt").mpr
    (Or.inr ⟨"System".data, "prompt".data, by decide, by decide⟩)
